import Mathlib

/-! Formal model of the tiny-postgres-migrator migration engine (migrate.js).

The JavaScript source is embedded shallowly:
* JS strings are lists of characters; String.prototype.slice,
  String.prototype.lastIndexOf and parseInt are modelled with their
  ECMAScript semantics (negative index clamping, -1 for a missing
  character, optional whitespace / sign / 0x prefix, NaN on failure).
* The postgres handle is an abstract transactional store: a DBState
  carries an opaque schema component and the rows of the migrations
  table (the ledger, one name per row, unique).  sql.begin runs a body
  and commits its final state on success, or restores the caller's
  state when the body raises (rollback), re-raising the error.
* Migration modules (require(location).up / .down) are an explicit
  registry assigning to every location an up and a down action on the
  schema; a none result models the operation throwing.
* Every database-visible action is recorded in an operation trace
  (reads, transaction control, forward/backward invocations, ledger
  writes), so that claims about what was or was not executed can be
  stated about the trace.
* The repository holds two historical variants of the same module (a
  postgres-driver one and a slonik one); their discovery, apply,
  revert and batch logic is line-for-line the same algorithm, so one
  model covers both. -/

/-- One character of the whitespace skipped by JavaScript parseInt. -/
def isJsSpace (c : Char) : Bool :=
  c == ' ' || c == '\t' || c == '\n' || c == '\r' || c == '\x0b' || c == '\x0c'

/-- A JavaScript number restricted to the values parseInt produces:
an integer or NaN. -/
inductive JsNum where
  | nan : JsNum
  | int : Int → JsNum
deriving DecidableEq

/-- Unary minus on a parseInt result (-NaN is NaN). -/
def jsNeg : JsNum → JsNum
  | JsNum.nan => JsNum.nan
  | JsNum.int k => JsNum.int (-k)

/-- Numeric value of a decimal digit character. -/
def digitVal (c : Char) : Nat := c.toNat - '0'.toNat

/-- Value of a run of decimal digits. -/
def decDigitsVal (ds : List Char) : Nat :=
  ds.foldl (fun acc c => acc * 10 + digitVal c) 0

/-- Hexadecimal digit test, as accepted by parseInt after a 0x prefix. -/
def isHexDigitJs (c : Char) : Bool :=
  c.isDigit || ('a' ≤ c && c ≤ 'f') || ('A' ≤ c && c ≤ 'F')

/-- Numeric value of a hexadecimal digit character. -/
def hexDigitVal (c : Char) : Nat :=
  if c.isDigit then digitVal c
  else if 'a' ≤ c && c ≤ 'f' then c.toNat - 'a'.toNat + 10
  else c.toNat - 'A'.toNat + 10

/-- Value of a run of hexadecimal digits. -/
def hexDigitsVal (ds : List Char) : Nat :=
  ds.foldl (fun acc c => acc * 16 + hexDigitVal c) 0

/-- Longest leading run of decimal digits, NaN when empty. -/
def fromDec (s : List Char) : JsNum :=
  let ds := s.takeWhile Char.isDigit
  if ds = [] then JsNum.nan else JsNum.int (Int.ofNat (decDigitsVal ds))

/-- Longest leading run of hexadecimal digits, NaN when empty. -/
def fromHex (s : List Char) : JsNum :=
  let ds := s.takeWhile isHexDigitJs
  if ds = [] then JsNum.nan else JsNum.int (Int.ofNat (hexDigitsVal ds))

/-- Digit part of parseInt with undefined radix: a 0x or 0X prefix
selects base 16, anything else is read in base 10. -/
def parseDigits (s : List Char) : JsNum :=
  if s.take 2 = ['0', 'x'] ∨ s.take 2 = ['0', 'X'] then fromHex (s.drop 2)
  else fromDec s

/-- ECMAScript parseInt with undefined radix: skip leading whitespace,
read an optional sign, then digits; NaN when no digit is found. -/
def parseIntChars (s : List Char) : JsNum :=
  let t := s.dropWhile isJsSpace
  if t.head? = some '-' then jsNeg (parseDigits t.tail)
  else if t.head? = some '+' then parseDigits t.tail
  else parseDigits t

/-- Accumulator loop for lastIndexOf. -/
def lastIndexOfAux (c : Char) : List Char → Nat → Int → Int
  | [], _, acc => acc
  | x :: rest, i, acc => lastIndexOfAux c rest (i + 1) (if x = c then (i : Int) else acc)

/-- String.prototype.lastIndexOf for a one-character needle: index of the
last occurrence, -1 when the character does not occur. -/
def lastIndexOf (s : List Char) (c : Char) : Int := lastIndexOfAux c s 0 (-1)

/-- String.prototype.slice: negative indices count from the end, indices
are clamped to [0, length], and an empty string results when the end
does not exceed the start. -/
def jsSlice (s : List Char) (start stop : Int) : List Char :=
  let len : Int := (s.length : Int)
  let s0 : Int := if start < 0 then max (len + start) 0 else min start len
  let e0 : Int := if stop < 0 then max (len + stop) 0 else min stop len
  (s.take e0.toNat).drop s0.toNat

/-- Migration descriptor: order key, source location and name, exactly
the object literal built by migrationLocationToMigration. -/
structure Migration where
  order : JsNum
  location : List Char
  name : List Char
deriving DecidableEq

/-- migrationLocationToMigration(loc): the name is
loc.slice(loc.lastIndexOf('/') + 1, loc.lastIndexOf('.')) and the order
key is parseInt of that name. -/
def migrationLocationToMigration (loc : List Char) : Migration :=
  let pluginName := jsSlice loc (lastIndexOf loc '/' + 1) (lastIndexOf loc '.')
  { order := parseIntChars pluginName, location := loc, name := pluginName }

/-- The external glob('dir/*.js') effect: for each directory, the list of
file paths it yields. -/
def Glob : Type := List Char → List (List Char)

/-- findMigrationsIn: map every globbed file to its descriptor. -/
def findMigrationsIn (globJs : Glob) (dir : List Char) : List Migration :=
  (globJs dir).map migrationLocationToMigration

/-- The sort comparator (a, b) => a.order - b.order as a boolean
less-or-equal: on two integers it is integer comparison; when NaN is
involved the subtraction is NaN, which Array.prototype.sort treats as
"equal", modelled by le holding either way. -/
def orderLe (a b : Migration) : Bool :=
  match a.order, b.order with
  | JsNum.int x, JsNum.int y => decide (x ≤ y)
  | _, _ => true

/-- Insert into a list sorted by the order comparator. -/
def insertByOrder (m : Migration) : List Migration → List Migration
  | [] => [m]
  | x :: xs => if orderLe m x then m :: x :: xs else x :: insertByOrder m xs

/-- migrations.sort((a, b) => a.order - b.order): a stable comparison
sort; on pairwise-comparable keys every stable comparison sort computes
the same list, modelled by stable insertion sort. -/
def sortByOrder : List Migration → List Migration
  | [] => []
  | x :: xs => insertByOrder x (sortByOrder xs)

/-- The aggregation loop of findAllMigrations before sorting:
migrations = migrations.concat(await findMigrationsIn(p)) over paths. -/
def discoveredRaw (globJs : Glob) (paths : List (List Char)) : List Migration :=
  paths.foldl (fun acc p => acc ++ findMigrationsIn globJs p) []

/-- findAllMigrations: aggregate over all roots, then sort oldest to
newest by order key. -/
def findAllMigrations (globJs : Glob) (paths : List (List Char)) : List Migration :=
  sortByOrder (discoveredRaw globJs paths)

/-- Database state: the opaque schema component acted on by migration
units, and the rows of the migrations table (the ledger). -/
structure DBState (σ : Type) where
  schema : σ
  ledger : List (List Char)
deriving DecidableEq

/-- Errors surfaced by the database layer: a migration unit operation
threw; the unique constraint on migrations.name was violated; the
NotAppliedError the design documents for reverting an unapplied unit. -/
inductive DbErr where
  | unitFailed
  | uniqueViolation
  | notApplied
deriving DecidableEq

/-- Database-visible operations, recorded in execution order: a read
query, transaction control, an invocation of a unit's forward or
backward operation, and ledger writes. -/
inductive DbOp where
  | query
  | beginTxn
  | commit
  | rollback
  | runUp (m : Migration)
  | runDown (m : Migration)
  | insertLedger (n : List Char)
  | deleteLedger (n : List Char)
deriving DecidableEq

/-- A loaded migration module: require(location) yields an object with
up and down actions on the schema; none models a thrown exception. -/
structure MigrationCode (σ : Type) where
  up : σ → Option σ
  down : σ → Option σ

/-- The module loader: what require(location) returns for each path. -/
def Registry (σ : Type) : Type := List Char → MigrationCode σ

/-- Outcome of a single operation: error (none on success), resulting
database state, and the trace of database operations performed. -/
structure StepResult (σ : Type) where
  err : Option DbErr
  state : DBState σ
  trace : List DbOp
deriving DecidableEq

/-- sql.begin(body): run the body against the current state; commit its
final state when it succeeds, restore the caller's state when it raises
(rollback) and propagate the error. -/
def beginTxn {σ : Type} (st : DBState σ) (body : DBState σ → StepResult σ) : StepResult σ :=
  let r := body st
  match r.err with
  | none => ⟨none, r.state, DbOp.beginTxn :: r.trace ++ [DbOp.commit]⟩
  | some e => ⟨some e, st, DbOp.beginTxn :: r.trace ++ [DbOp.rollback]⟩

/-- hasBeenRun: select count(*) from migrations where name = m.name,
compared against zero, i.e. ledger membership of the name. -/
def hasBeenRun {σ : Type} (st : DBState σ) (m : Migration) : Bool :=
  decide (m.name ∈ st.ledger)

/-- The private _applyMigration: inside one sql.begin transaction, load
the module, run its up operation, then insert the name into the
migrations table; the unique constraint on name rejects a duplicate. -/
def _applyMigration {σ : Type} (reg : Registry σ) (st : DBState σ) (m : Migration) :
    StepResult σ :=
  beginTxn st (fun st0 =>
    match (reg m.location).up st0.schema with
    | none => ⟨some DbErr.unitFailed, st0, [DbOp.runUp m]⟩
    | some sch =>
      if m.name ∈ st0.ledger then
        ⟨some DbErr.uniqueViolation, ⟨sch, st0.ledger⟩,
          [DbOp.runUp m, DbOp.insertLedger m.name]⟩
      else
        ⟨none, ⟨sch, st0.ledger ++ [m.name]⟩,
          [DbOp.runUp m, DbOp.insertLedger m.name]⟩)

/-- The filesystem existence check fs.existsSync. -/
def FileSys : Type := List Char → Bool

/-- Exported applyMigration: abort with a log line when the path is
missing (before any database access); otherwise derive the descriptor
and, unless it has already been run, delegate to _applyMigration. -/
def applyMigration {σ : Type} (fsx : FileSys) (reg : Registry σ) (st : DBState σ)
    (loc : List Char) : StepResult σ :=
  if fsx loc = false then ⟨none, st, []⟩
  else
    let m := migrationLocationToMigration loc
    if hasBeenRun st m = false then
      let r := _applyMigration reg st m
      ⟨r.err, r.state, DbOp.query :: r.trace⟩
    else ⟨none, st, [DbOp.query]⟩

/-- Exported revertMigration: abort with a log line when the path is
missing (before any database access); abort with a log line, not an
error, when the name is not in the migrations table; otherwise run the
down operation and delete the ledger row inside one transaction. -/
def revertMigration {σ : Type} (fsx : FileSys) (reg : Registry σ) (st : DBState σ)
    (loc : List Char) : StepResult σ :=
  if fsx loc = false then ⟨none, st, []⟩
  else
    let m := migrationLocationToMigration loc
    if hasBeenRun st m = false then ⟨none, st, [DbOp.query]⟩
    else
      let r := beginTxn st (fun st0 =>
        match (reg m.location).down st0.schema with
        | none => ⟨some DbErr.unitFailed, st0, [DbOp.runDown m]⟩
        | some sch =>
          ⟨none, ⟨sch, st0.ledger.filter (fun n => decide (n ≠ m.name))⟩,
            [DbOp.runDown m, DbOp.deleteLedger m.name]⟩)
      ⟨r.err, r.state, DbOp.query :: r.trace⟩

/-- Outcome of the batch loop of applyAllMigrations. -/
structure LoopResult (σ : Type) where
  err : Option DbErr
  state : DBState σ
  numRun : Nat
  trace : List DbOp
deriving DecidableEq

/-- The for-loop of applyAllMigrations: for each descriptor in order,
skip it when hasBeenRun, else await _applyMigration and count it; an
error thrown by _applyMigration propagates at once, ending the loop. -/
def applyAllLoop {σ : Type} (reg : Registry σ) :
    DBState σ → List Migration → Nat → LoopResult σ
  | st, [], n => ⟨none, st, n, []⟩
  | st, m :: rest, n =>
    if hasBeenRun st m = true then
      let r := applyAllLoop reg st rest n
      ⟨r.err, r.state, r.numRun, DbOp.query :: r.trace⟩
    else if (_applyMigration reg st m).err = none then
      let r := applyAllLoop reg (_applyMigration reg st m).state rest (n + 1)
      ⟨r.err, r.state, r.numRun, (DbOp.query :: (_applyMigration reg st m).trace) ++ r.trace⟩
    else
      ⟨(_applyMigration reg st m).err, (_applyMigration reg st m).state, n,
        DbOp.query :: (_applyMigration reg st m).trace⟩

/-- The value a JavaScript async function resolves with: undefined when
the function body has no return statement. -/
inductive JsRet where
  | undef
  | num (n : Nat)
deriving DecidableEq

/-- Outcome of applyAllMigrations: error, final state, the internal
num_run counter, the operation trace, and the resolved value. -/
structure BatchResult (σ : Type) where
  err : Option DbErr
  state : DBState σ
  numRun : Nat
  trace : List DbOp
  ret : JsRet
deriving DecidableEq

/-- Exported applyAllMigrations: ensure the migrations table exists (a
read, plus a create when absent, modelled as the leading query), find
and sort all migrations, then run the batch loop; num_run is only
logged, and the function body has no return statement, so it resolves
with undefined. -/
def applyAllMigrations {σ : Type} (globJs : Glob) (reg : Registry σ) (st : DBState σ)
    (paths : List (List Char)) : BatchResult σ :=
  let r := applyAllLoop reg st (findAllMigrations globJs paths) 0
  ⟨r.err, r.state, r.numRun, DbOp.query :: r.trace, JsRet.undef⟩

/-- The forward (up) invocations recorded in a trace, in order. -/
def upsOf : List DbOp → List Migration
  | [] => []
  | DbOp.runUp m :: rest => m :: upsOf rest
  | DbOp.query :: rest => upsOf rest
  | DbOp.beginTxn :: rest => upsOf rest
  | DbOp.commit :: rest => upsOf rest
  | DbOp.rollback :: rest => upsOf rest
  | DbOp.runDown _ :: rest => upsOf rest
  | DbOp.insertLedger _ :: rest => upsOf rest
  | DbOp.deleteLedger _ :: rest => upsOf rest

/-- Strict order-key comparison, defined (true) only between integer
order keys. -/
def ordLtB (a b : Migration) : Bool :=
  match a.order, b.order with
  | JsNum.int x, JsNum.int y => decide (x < y)
  | _, _ => false

/-- Character list of a string literal, for concrete scenarios. -/
def str (s : String) : List Char := s.data

/-! Shared lemmas about the executor step. -/

theorem _applyMigration_ok {σ : Type} (reg : Registry σ) (st : DBState σ) (m : Migration)
    (sch : σ) (hup : (reg m.location).up st.schema = some sch) (hmem : m.name ∉ st.ledger) :
    _applyMigration reg st m =
      ⟨none, ⟨sch, st.ledger ++ [m.name]⟩,
        [DbOp.beginTxn, DbOp.runUp m, DbOp.insertLedger m.name, DbOp.commit]⟩ := by
  simp [_applyMigration, beginTxn, hup, hmem]

theorem _applyMigration_failUp {σ : Type} (reg : Registry σ) (st : DBState σ) (m : Migration)
    (hup : (reg m.location).up st.schema = none) :
    _applyMigration reg st m =
      ⟨some DbErr.unitFailed, st, [DbOp.beginTxn, DbOp.runUp m, DbOp.rollback]⟩ := by
  simp [_applyMigration, beginTxn, hup]

theorem _applyMigration_conflict {σ : Type} (reg : Registry σ) (st : DBState σ) (m : Migration)
    (sch : σ) (hup : (reg m.location).up st.schema = some sch) (hmem : m.name ∈ st.ledger) :
    _applyMigration reg st m =
      ⟨some DbErr.uniqueViolation, st,
        [DbOp.beginTxn, DbOp.runUp m, DbOp.insertLedger m.name, DbOp.rollback]⟩ := by
  simp [_applyMigration, beginTxn, hup, hmem]

theorem _applyMigration_ledger_ok {σ : Type} (reg : Registry σ) (st : DBState σ) (m : Migration)
    (h : (_applyMigration reg st m).err = none) :
    (_applyMigration reg st m).state.ledger = st.ledger ++ [m.name] := by
  cases hup : (reg m.location).up st.schema with
  | none => rw [_applyMigration_failUp reg st m hup] at h; exact absurd h (by simp)
  | some sch =>
    by_cases hmem : m.name ∈ st.ledger
    · rw [_applyMigration_conflict reg st m sch hup hmem] at h; exact absurd h (by simp)
    · rw [_applyMigration_ok reg st m sch hup hmem]

theorem _applyMigration_state_err {σ : Type} (reg : Registry σ) (st : DBState σ) (m : Migration)
    (h : (_applyMigration reg st m).err ≠ none) :
    (_applyMigration reg st m).state = st := by
  cases hup : (reg m.location).up st.schema with
  | none => rw [_applyMigration_failUp reg st m hup]
  | some sch =>
    by_cases hmem : m.name ∈ st.ledger
    · rw [_applyMigration_conflict reg st m sch hup hmem]
    · rw [_applyMigration_ok reg st m sch hup hmem] at h; exact absurd rfl h

theorem _applyMigration_ledger_sublist {σ : Type} (reg : Registry σ) (st : DBState σ)
    (m : Migration) :
    List.Sublist st.ledger (_applyMigration reg st m).state.ledger := by
  cases h : (_applyMigration reg st m).err with
  | none => rw [_applyMigration_ledger_ok reg st m h]; exact List.sublist_append_left _ _
  | some e => rw [_applyMigration_state_err reg st m (by simp [h])]

theorem upsOf_append (a b : List DbOp) : upsOf (a ++ b) = upsOf a ++ upsOf b := by
  induction a with
  | nil => rfl
  | cons op rest ih => cases op <;> simp [upsOf, ih]

theorem _applyMigration_ups {σ : Type} (reg : Registry σ) (st : DBState σ) (m : Migration) :
    upsOf (_applyMigration reg st m).trace = [m] := by
  cases hup : (reg m.location).up st.schema with
  | none => rw [_applyMigration_failUp reg st m hup]; rfl
  | some sch =>
    by_cases hmem : m.name ∈ st.ledger
    · rw [_applyMigration_conflict reg st m sch hup hmem]; rfl
    · rw [_applyMigration_ok reg st m sch hup hmem]; rfl

theorem _applyMigration_commit_count {σ : Type} (reg : Registry σ) (st : DBState σ)
    (m : Migration) :
    (_applyMigration reg st m).trace.count DbOp.commit =
      if (_applyMigration reg st m).err = none then 1 else 0 := by
  cases hup : (reg m.location).up st.schema with
  | none => rw [_applyMigration_failUp reg st m hup]; rfl
  | some sch =>
    by_cases hmem : m.name ∈ st.ledger
    · rw [_applyMigration_conflict reg st m sch hup hmem]; rfl
    · rw [_applyMigration_ok reg st m sch hup hmem]; rfl

/-! Shared lemmas about the batch loop. -/

theorem applyAllLoop_nil {σ : Type} (reg : Registry σ) (st : DBState σ) (n : Nat) :
    applyAllLoop reg st [] n = ⟨none, st, n, []⟩ := rfl

theorem applyAllLoop_cons_skip {σ : Type} (reg : Registry σ) (st : DBState σ) (m : Migration)
    (rest : List Migration) (n : Nat) (h : hasBeenRun st m = true) :
    applyAllLoop reg st (m :: rest) n =
      ⟨(applyAllLoop reg st rest n).err, (applyAllLoop reg st rest n).state,
        (applyAllLoop reg st rest n).numRun,
        DbOp.query :: (applyAllLoop reg st rest n).trace⟩ := by
  simp [applyAllLoop, h]

theorem applyAllLoop_cons_ok {σ : Type} (reg : Registry σ) (st : DBState σ) (m : Migration)
    (rest : List Migration) (n : Nat) (h : hasBeenRun st m = false)
    (h2 : (_applyMigration reg st m).err = none) :
    applyAllLoop reg st (m :: rest) n =
      ⟨(applyAllLoop reg (_applyMigration reg st m).state rest (n + 1)).err,
        (applyAllLoop reg (_applyMigration reg st m).state rest (n + 1)).state,
        (applyAllLoop reg (_applyMigration reg st m).state rest (n + 1)).numRun,
        (DbOp.query :: (_applyMigration reg st m).trace) ++
          (applyAllLoop reg (_applyMigration reg st m).state rest (n + 1)).trace⟩ := by
  simp [applyAllLoop, h, h2]

theorem applyAllLoop_cons_err {σ : Type} (reg : Registry σ) (st : DBState σ) (m : Migration)
    (rest : List Migration) (n : Nat) (h : hasBeenRun st m = false)
    (h2 : (_applyMigration reg st m).err ≠ none) :
    applyAllLoop reg st (m :: rest) n =
      ⟨(_applyMigration reg st m).err, (_applyMigration reg st m).state, n,
        DbOp.query :: (_applyMigration reg st m).trace⟩ := by
  simp [applyAllLoop, h, h2]

theorem applyAllLoop_ledger_sublist {σ : Type} (reg : Registry σ) (ms : List Migration) :
    ∀ (st : DBState σ) (n : Nat),
      List.Sublist st.ledger (applyAllLoop reg st ms n).state.ledger := by
  induction ms with
  | nil => intro st n; rw [applyAllLoop_nil]
  | cons m rest ih =>
    intro st n
    by_cases h : hasBeenRun st m = true
    · rw [applyAllLoop_cons_skip reg st m rest n h]; exact ih st n
    · replace h : hasBeenRun st m = false := by simpa using h
      by_cases h2 : (_applyMigration reg st m).err = none
      · rw [applyAllLoop_cons_ok reg st m rest n h h2]
        exact List.Sublist.trans (_applyMigration_ledger_sublist reg st m)
          (ih (_applyMigration reg st m).state (n + 1))
      · rw [applyAllLoop_cons_err reg st m rest n h h2]
        rw [_applyMigration_state_err reg st m h2]

theorem applyAllLoop_all_applied {σ : Type} (reg : Registry σ) (ms : List Migration) :
    ∀ (st : DBState σ) (n : Nat), (applyAllLoop reg st ms n).err = none →
      ∀ m' ∈ ms, m'.name ∈ (applyAllLoop reg st ms n).state.ledger := by
  induction ms with
  | nil => intro st n _ m' hm'; exact absurd hm' (List.not_mem_nil m')
  | cons m rest ih =>
    intro st n herr m' hm'
    by_cases h : hasBeenRun st m = true
    · rw [applyAllLoop_cons_skip reg st m rest n h] at herr ⊢
      rcases List.mem_cons.mp hm' with rfl | hm'
      · have hmem : m'.name ∈ st.ledger := by simpa [hasBeenRun] using h
        exact (applyAllLoop_ledger_sublist reg rest st n).mem hmem
      · exact ih st n herr m' hm'
    · replace h : hasBeenRun st m = false := by simpa using h
      by_cases h2 : (_applyMigration reg st m).err = none
      · rw [applyAllLoop_cons_ok reg st m rest n h h2] at herr ⊢
        rcases List.mem_cons.mp hm' with rfl | hm'
        · have hmem : m'.name ∈ (_applyMigration reg st m').state.ledger := by
            rw [_applyMigration_ledger_ok reg st m' h2]
            exact List.mem_append_right _ (List.mem_singleton.mpr rfl)
          exact (applyAllLoop_ledger_sublist reg rest _ (n + 1)).mem hmem
        · exact ih _ (n + 1) herr m' hm'
      · rw [applyAllLoop_cons_err reg st m rest n h h2] at herr
        exact absurd herr h2

theorem applyAllLoop_skip_all {σ : Type} (reg : Registry σ) (ms : List Migration) :
    ∀ (st : DBState σ) (n : Nat), (∀ m' ∈ ms, hasBeenRun st m' = true) →
      applyAllLoop reg st ms n = ⟨none, st, n, List.replicate ms.length DbOp.query⟩ := by
  induction ms with
  | nil => intro st n _; rw [applyAllLoop_nil]; rfl
  | cons m rest ih =>
    intro st n hall
    rw [applyAllLoop_cons_skip reg st m rest n (hall m (List.mem_cons_self m rest))]
    rw [ih st n (fun m' hm' => hall m' (List.mem_cons_of_mem m hm'))]
    simp [List.replicate_succ]

theorem applyAllLoop_ups_sublist {σ : Type} (reg : Registry σ) (ms : List Migration) :
    ∀ (st : DBState σ) (n : Nat),
      List.Sublist (upsOf (applyAllLoop reg st ms n).trace) ms := by
  induction ms with
  | nil => intro st n; rw [applyAllLoop_nil]; exact List.nil_sublist []
  | cons m rest ih =>
    intro st n
    by_cases h : hasBeenRun st m = true
    · rw [applyAllLoop_cons_skip reg st m rest n h]
      exact (ih st n).cons m
    · replace h : hasBeenRun st m = false := by simpa using h
      by_cases h2 : (_applyMigration reg st m).err = none
      · rw [applyAllLoop_cons_ok reg st m rest n h h2]
        have : upsOf ((DbOp.query :: (_applyMigration reg st m).trace) ++
            (applyAllLoop reg (_applyMigration reg st m).state rest (n + 1)).trace) =
            [m] ++ upsOf (applyAllLoop reg (_applyMigration reg st m).state rest (n + 1)).trace := by
          rw [upsOf_append]
          simp [upsOf, _applyMigration_ups reg st m]
        rw [this]
        exact (ih _ (n + 1)).cons₂ m
      · rw [applyAllLoop_cons_err reg st m rest n h h2]
        have : upsOf (DbOp.query :: (_applyMigration reg st m).trace) = [m] := by
          simp [upsOf, _applyMigration_ups reg st m]
        rw [this]
        exact List.Sublist.cons₂ m (List.nil_sublist rest)

theorem applyAllLoop_append {σ : Type} (reg : Registry σ) (ms1 ms2 : List Migration) :
    ∀ (st : DBState σ) (n : Nat), (applyAllLoop reg st ms1 n).err = none →
      applyAllLoop reg st (ms1 ++ ms2) n =
        ⟨(applyAllLoop reg (applyAllLoop reg st ms1 n).state ms2
            (applyAllLoop reg st ms1 n).numRun).err,
          (applyAllLoop reg (applyAllLoop reg st ms1 n).state ms2
            (applyAllLoop reg st ms1 n).numRun).state,
          (applyAllLoop reg (applyAllLoop reg st ms1 n).state ms2
            (applyAllLoop reg st ms1 n).numRun).numRun,
          (applyAllLoop reg st ms1 n).trace ++
            (applyAllLoop reg (applyAllLoop reg st ms1 n).state ms2
              (applyAllLoop reg st ms1 n).numRun).trace⟩ := by
  induction ms1 with
  | nil => intro st n _; rw [applyAllLoop_nil]; simp
  | cons m rest ih =>
    intro st n herr
    by_cases h : hasBeenRun st m = true
    · rw [applyAllLoop_cons_skip reg st m rest n h] at herr ⊢
      rw [List.cons_append, applyAllLoop_cons_skip reg st m (rest ++ ms2) n h, ih st n herr]
      simp
    · replace h : hasBeenRun st m = false := by simpa using h
      by_cases h2 : (_applyMigration reg st m).err = none
      · rw [applyAllLoop_cons_ok reg st m rest n h h2] at herr ⊢
        rw [List.cons_append, applyAllLoop_cons_ok reg st m (rest ++ ms2) n h h2,
          ih _ (n + 1) herr]
        simp
      · rw [applyAllLoop_cons_err reg st m rest n h h2] at herr
        exact absurd herr h2

theorem applyAllLoop_numRun_commits {σ : Type} (reg : Registry σ) (ms : List Migration) :
    ∀ (st : DBState σ) (n : Nat),
      (applyAllLoop reg st ms n).numRun =
        n + (applyAllLoop reg st ms n).trace.count DbOp.commit := by
  induction ms with
  | nil => intro st n; rw [applyAllLoop_nil]; rfl
  | cons m rest ih =>
    intro st n
    have hqc : DbOp.commit ≠ DbOp.query := by decide
    by_cases h : hasBeenRun st m = true
    · rw [applyAllLoop_cons_skip reg st m rest n h]
      have := ih st n
      simpa [List.count_cons_of_ne hqc] using this
    · replace h : hasBeenRun st m = false := by simpa using h
      by_cases h2 : (_applyMigration reg st m).err = none
      · rw [applyAllLoop_cons_ok reg st m rest n h h2]
        have hc := _applyMigration_commit_count reg st m
        rw [if_pos h2] at hc
        have := ih (_applyMigration reg st m).state (n + 1)
        simp only [List.count_append, List.count_cons_of_ne hqc, List.cons_append, hc]
        simp only [this]
        omega
      · rw [applyAllLoop_cons_err reg st m rest n h h2]
        have hc := _applyMigration_commit_count reg st m
        rw [if_neg h2] at hc
        simp [List.count_cons_of_ne hqc, hc]

theorem upsOf_replicate_query (k : Nat) : upsOf (List.replicate k DbOp.query) = [] := by
  induction k with
  | zero => rfl
  | succ k ih => rw [List.replicate_succ]; simpa [upsOf] using ih

/-! Shared lemmas about sorting and discovery. -/

theorem insertByOrder_perm (m : Migration) (l : List Migration) :
    List.Perm (insertByOrder m l) (m :: l) := by
  induction l with
  | nil => exact List.Perm.refl [m]
  | cons x xs ih =>
    rw [insertByOrder]
    by_cases h : orderLe m x = true
    · rw [if_pos h]
    · rw [if_neg h]
      exact List.Perm.trans (ih.cons x) (List.Perm.swap m x xs)

theorem sortByOrder_perm (l : List Migration) : List.Perm (sortByOrder l) l := by
  induction l with
  | nil => exact List.Perm.refl []
  | cons x xs ih =>
    rw [sortByOrder]
    exact List.Perm.trans (insertByOrder_perm x (sortByOrder xs)) (ih.cons x)

theorem orderLe_total (a b : Migration) : orderLe a b = true ∨ orderLe b a = true := by
  unfold orderLe
  cases a.order with
  | nan => cases b.order <;> simp
  | int x =>
    cases b.order with
    | nan => simp
    | int y =>
      rcases Int.le_total x y with h | h
      · exact Or.inl (by simpa using h)
      · exact Or.inr (by simpa using h)

theorem orderLe_trans_of_int (a b c : Migration)
    (ha : a.order ≠ JsNum.nan) (hb : b.order ≠ JsNum.nan) (hc : c.order ≠ JsNum.nan)
    (h1 : orderLe a b = true) (h2 : orderLe b c = true) : orderLe a c = true := by
  unfold orderLe at h1 h2 ⊢
  cases hao : a.order with
  | nan => exact absurd hao ha
  | int x =>
    cases hbo : b.order with
    | nan => exact absurd hbo hb
    | int y =>
      cases hco : c.order with
      | nan => exact absurd hco hc
      | int z =>
        rw [hao, hbo] at h1
        rw [hbo, hco] at h2
        simp only [decide_eq_true_eq] at h1 h2 ⊢
        exact le_trans h1 h2

theorem mem_insertByOrder (x m : Migration) (l : List Migration) :
    x ∈ insertByOrder m l ↔ x = m ∨ x ∈ l := by
  rw [(insertByOrder_perm m l).mem_iff]
  simp

theorem pairwise_insertByOrder (m : Migration) (l : List Migration)
    (hm : m.order ≠ JsNum.nan) (hl : ∀ x ∈ l, x.order ≠ JsNum.nan)
    (hp : l.Pairwise (fun a b => orderLe a b = true)) :
    (insertByOrder m l).Pairwise (fun a b => orderLe a b = true) := by
  induction l with
  | nil => simp [insertByOrder]
  | cons x xs ih =>
    rw [List.pairwise_cons] at hp
    obtain ⟨hx, hxs⟩ := hp
    rw [insertByOrder]
    by_cases h : orderLe m x = true
    · rw [if_pos h]
      refine List.Pairwise.cons ?_ (List.Pairwise.cons hx hxs)
      intro y hy
      rcases List.mem_cons.mp hy with rfl | hy
      · exact h
      · exact orderLe_trans_of_int m x y hm (hl x (List.mem_cons_self x xs))
          (hl y (List.mem_cons_of_mem x hy)) h (hx y hy)
    · rw [if_neg h]
      have hxm : orderLe x m = true := by
        rcases orderLe_total m x with h' | h'
        · exact absurd h' h
        · exact h'
      refine List.Pairwise.cons ?_ (ih (fun y hy => hl y (List.mem_cons_of_mem x hy)) hxs)
      intro y hy
      rcases (mem_insertByOrder y m xs).mp hy with rfl | hy
      · exact hxm
      · exact hx y hy

theorem sortByOrder_sorted (l : List Migration) (hl : ∀ x ∈ l, x.order ≠ JsNum.nan) :
    (sortByOrder l).Pairwise (fun a b => orderLe a b = true) := by
  induction l with
  | nil => simp [sortByOrder]
  | cons x xs ih =>
    rw [sortByOrder]
    refine pairwise_insertByOrder x (sortByOrder xs) (hl x (List.mem_cons_self x xs)) ?_ ?_
    · intro y hy
      exact hl y (List.mem_cons_of_mem x ((sortByOrder_perm xs).mem_iff.mp hy))
    · exact ih (fun y hy => hl y (List.mem_cons_of_mem x hy))

theorem mem_discoveredRaw_aux (globJs : Glob) (x : Migration) (paths : List (List Char)) :
    ∀ acc : List Migration,
      (x ∈ acc ∨ ∃ p ∈ paths, x ∈ findMigrationsIn globJs p) →
      x ∈ paths.foldl (fun acc p => acc ++ findMigrationsIn globJs p) acc := by
  induction paths with
  | nil =>
    intro acc h
    rcases h with h | ⟨p, hp, _⟩
    · exact h
    · exact absurd hp (List.not_mem_nil p)
  | cons q rest ih =>
    intro acc h
    rw [List.foldl_cons]
    refine ih (acc ++ findMigrationsIn globJs q) ?_
    rcases h with h | ⟨p, hp, hx⟩
    · exact Or.inl (List.mem_append_left _ h)
    · rcases List.mem_cons.mp hp with rfl | hp
      · exact Or.inl (List.mem_append_right _ hx)
      · exact Or.inr ⟨p, hp, hx⟩

theorem mem_discoveredRaw (globJs : Glob) (paths : List (List Char)) (p loc : List Char)
    (hp : p ∈ paths) (hl : loc ∈ globJs p) :
    migrationLocationToMigration loc ∈ discoveredRaw globJs paths := by
  refine mem_discoveredRaw_aux globJs _ paths [] (Or.inr ⟨p, hp, ?_⟩)
  exact List.mem_map_of_mem migrationLocationToMigration hl

/-! Shared lemmas about the string primitives. -/

/-- A migration module whose operations succeed without touching the
schema. -/
def idCode : MigrationCode Unit := ⟨fun s => some s, fun s => some s⟩

/-- A migration module whose forward operation throws. -/
def failUpCode : MigrationCode Unit := ⟨fun _ => none, fun s => some s⟩

/-- A registry in which every module succeeds. -/
def okReg : Registry Unit := fun _ => idCode

/-- A registry in which exactly the unit at r/20.js fails forward. -/
def demoReg : Registry Unit := fun loc => if loc = str "r/20.js" then failUpCode else idCode

/-- One root with three units ordered 10, 20, 30. -/
def demoGlob : Glob := fun _ => [str "r/10.js", str "r/20.js", str "r/30.js"]

/-- Two roots: a contributes order key 20, b contributes 10 and 30. -/
def crossGlob : Glob := fun p => if p = str "a" then [str "a/20.js"] else [str "b/10.js", str "b/30.js"]

/-- One root with a single unit of order key 1. -/
def oneGlob : Glob := fun _ => [str "r/1.js"]

/-- The empty database: trivial schema, no ledger rows. -/
def emptyDb : DBState Unit := ⟨(), []⟩

/-- Shorthand for the descriptor of a literal location. -/
def mig (s : String) : Migration := migrationLocationToMigration (str s)

/-! The claims. -/

/-- C1: for a descriptor whose name is not yet in the ledger, the
single-migration apply runs the unit's forward operation and the ledger
insertion inside one transaction (begin .. commit around exactly those
two actions); when the forward operation succeeds the commit makes both
the schema change and the ledger row visible, and when it raises the
transaction rolls back, the state is exactly the prior state and the
name is still not applied. -/
theorem applyOne_single_txn_atomic (σ : Type) (reg : Registry σ) (st : DBState σ)
    (m : Migration) (hpend : hasBeenRun st m = false) :
    (∀ sch : σ, (reg m.location).up st.schema = some sch →
      _applyMigration reg st m =
        ⟨none, ⟨sch, st.ledger ++ [m.name]⟩,
          [DbOp.beginTxn, DbOp.runUp m, DbOp.insertLedger m.name, DbOp.commit]⟩) ∧
    ((reg m.location).up st.schema = none →
      _applyMigration reg st m =
        ⟨some DbErr.unitFailed, st, [DbOp.beginTxn, DbOp.runUp m, DbOp.rollback]⟩ ∧
      hasBeenRun (_applyMigration reg st m).state m = false) := by
  have hmem : m.name ∉ st.ledger := by simpa [hasBeenRun] using hpend
  constructor
  · intro sch hup
    exact _applyMigration_ok reg st m sch hup hmem
  · intro hup
    refine ⟨_applyMigration_failUp reg st m hup, ?_⟩
    rw [_applyMigration_failUp reg st m hup]
    exact hpend

/-- Witness for C1: in the empty database, applying the unit at r/1.js
commits both its schema effect and the ledger row for name 1 inside one
transaction. -/
theorem applyOne_single_txn_atomic_witness :
    _applyMigration okReg emptyDb (mig "r/1.js") =
      ⟨none, ⟨(), [str "1"]⟩,
        [DbOp.beginTxn, DbOp.runUp (mig "r/1.js"), DbOp.insertLedger (str "1"),
          DbOp.commit]⟩ := by
  have h := (applyOne_single_txn_atomic Unit okReg emptyDb (mig "r/1.js") (by decide)).1 () rfl
  exact h.trans (by decide)

/-- C6 counterexample: reverting a unit that was never recorded as
applied does not raise NotAppliedError (or any error): revertMigration
logs the abort and resolves normally after the single existence read,
with no transaction, no backward invocation and no ledger write. -/
theorem revert_unapplied_no_error_counterexample :
    (revertMigration (fun _ => true) okReg emptyDb (str "r/10.js")).err = none ∧
    (revertMigration (fun _ => true) okReg emptyDb (str "r/10.js")).err ≠
      some DbErr.notApplied ∧
    (revertMigration (fun _ => true) okReg emptyDb (str "r/10.js")).trace =
      [DbOp.query] := by decide

/-- C6 amended: for a descriptor whose name is not in the ledger, the
single-unit revert performs only the existence read and then aborts
cleanly (a logged no-op, not an error): no transaction is opened, the
backward operation is never invoked, and the state is unchanged. -/
theorem revert_unapplied_aborts_cleanly (σ : Type) (fsx : FileSys) (reg : Registry σ)
    (st : DBState σ) (loc : List Char) (hfs : fsx loc = true)
    (h : hasBeenRun st (migrationLocationToMigration loc) = false) :
    revertMigration fsx reg st loc = ⟨none, st, [DbOp.query]⟩ := by
  unfold revertMigration
  rw [if_neg (by rw [hfs]; exact fun hcontra => Bool.noConfusion hcontra), if_pos h]

/-- Witness for C6's amended statement at a concrete unapplied unit. -/
theorem revert_unapplied_aborts_cleanly_witness :
    revertMigration (fun _ => true) okReg emptyDb (str "r/10.js") =
      ⟨none, emptyDb, [DbOp.query]⟩ :=
  revert_unapplied_aborts_cleanly Unit (fun _ => true) okReg emptyDb (str "r/10.js")
    rfl (by decide)

/-- C8 counterexample: at a missing target path the single-unit apply
and the single-unit revert do not fail with NotFoundError (or any
error): both log the abort and resolve normally, so the error field of
each outcome is none — the negation of the claim's error conjunct. -/
theorem missing_target_no_error_counterexample :
    (applyMigration (fun _ => false) okReg emptyDb (str "r/9.js")).err = none ∧
    (revertMigration (fun _ => false) okReg emptyDb (str "r/9.js")).err = none := by decide

/-- C8 amended: when the target path does not exist, both the
single-unit apply and the single-unit revert log the abort and return
cleanly (no NotFoundError is raised to the caller) before any database
access: the operation trace is empty (no query, no transaction) and the
state, ledger included, is exactly the prior state. -/
theorem missing_target_no_db_access (σ : Type) (fsx : FileSys) (reg : Registry σ)
    (st : DBState σ) (loc : List Char) (h : fsx loc = false) :
    applyMigration fsx reg st loc = ⟨none, st, []⟩ ∧
    revertMigration fsx reg st loc = ⟨none, st, []⟩ := by
  constructor
  · unfold applyMigration
    rw [if_pos h]
  · unfold revertMigration
    rw [if_pos h]

/-- Witness for C8 at a concrete missing path. -/
theorem missing_target_no_db_access_witness :
    applyMigration (fun _ => false) okReg emptyDb (str "r/9.js") = ⟨none, emptyDb, []⟩ ∧
    revertMigration (fun _ => false) okReg emptyDb (str "r/9.js") = ⟨none, emptyDb, []⟩ :=
  missing_target_no_db_access Unit (fun _ => false) okReg emptyDb (str "r/9.js") rfl

/-- C9: the apply operations only ever extend the ledger (the prior
ledger is a sublist of the resulting one, for both the single apply and
the batch apply, whatever happens), and the only deleting operation,
revertMigration, either leaves the ledger unchanged (aborted or rolled
back) or removes exactly the rows whose name equals the reverted
descriptor's name. -/
theorem ledger_monotone_and_revert_delete (σ : Type) (fsx : FileSys) (globJs : Glob)
    (reg : Registry σ) (st : DBState σ) (loc : List Char) (paths : List (List Char)) :
    List.Sublist st.ledger (applyMigration fsx reg st loc).state.ledger ∧
    List.Sublist st.ledger (applyAllMigrations globJs reg st paths).state.ledger ∧
    ((revertMigration fsx reg st loc).state.ledger = st.ledger ∨
      (revertMigration fsx reg st loc).state.ledger =
        st.ledger.filter
          (fun n => decide (n ≠ (migrationLocationToMigration loc).name))) := by
  refine ⟨?_, ?_, ?_⟩
  · unfold applyMigration
    by_cases h : fsx loc = false
    · rw [if_pos h]
    · rw [if_neg h]
      by_cases h2 : hasBeenRun st (migrationLocationToMigration loc) = false
      · rw [if_pos h2]
        exact _applyMigration_ledger_sublist reg st (migrationLocationToMigration loc)
      · rw [if_neg h2]
  · unfold applyAllMigrations
    exact applyAllLoop_ledger_sublist reg (findAllMigrations globJs paths) st 0
  · unfold revertMigration
    by_cases h : fsx loc = false
    · rw [if_pos h]
      exact Or.inl rfl
    · rw [if_neg h]
      by_cases h2 : hasBeenRun st (migrationLocationToMigration loc) = false
      · rw [if_pos h2]
        exact Or.inl rfl
      · rw [if_neg h2]
        unfold beginTxn
        cases hdn : (reg (migrationLocationToMigration loc).location).down st.schema with
        | none => simp [hdn]
        | some sch => simp [hdn]

/-- C5 counterexample: for the discovered file d/foo.js, whose name foo
has no parsable leading order key, discovery does not fail: there is no
InvalidMigrationName (or any) error path in migrationLocationToMigration
or findMigrationsIn — both are total — and the pass yields a normal
descriptor list in which the entry is present with its order key
silently coerced to NaN rather than skipped. -/
theorem discovery_unparsable_key_counterexample :
    findAllMigrations (fun _ => [str "d/foo.js"]) [str "d"] =
      [{ order := JsNum.nan, location := str "d/foo.js", name := str "foo" }] ∧
    (migrationLocationToMigration (str "d/foo.js")).order = JsNum.nan := by decide

/-- C5 amended: discovery never fails and never skips an entry: every
file yielded by glob under any root appears (as its descriptor) in the
discovery result, including files whose leading order key cannot be
parsed, which carry order NaN instead of raising InvalidMigrationName. -/
theorem discovery_total_never_skips (globJs : Glob) (paths : List (List Char))
    (p loc : List Char) (hp : p ∈ paths) (hl : loc ∈ globJs p) :
    migrationLocationToMigration loc ∈ findAllMigrations globJs paths := by
  unfold findAllMigrations
  rw [(sortByOrder_perm (discoveredRaw globJs paths)).mem_iff]
  exact mem_discoveredRaw globJs paths p loc hp hl

/-- Witness for C5's amended statement: the unparsable entry d/foo.js is
discovered, not skipped. -/
theorem discovery_total_never_skips_witness :
    migrationLocationToMigration (str "d/foo.js") ∈
      findAllMigrations (fun _ => [str "d/foo.js"]) [str "d"] :=
  discovery_total_never_skips (fun _ => [str "d/foo.js"]) [str "d"] (str "d")
    (str "d/foo.js") (by decide) (by decide)

/-- C7 counterexample: a batch run that newly applies one migration
still resolves with undefined (the function body of applyAllMigrations
has no return statement; its declared type is Promise of void), so the
resolved value is not the count of newly applied migrations. -/
theorem applyAll_returns_undefined_counterexample :
    (applyAllMigrations oneGlob okReg emptyDb [str "r"]).numRun = 1 ∧
    (applyAllMigrations oneGlob okReg emptyDb [str "r"]).ret = JsRet.undef ∧
    (applyAllMigrations oneGlob okReg emptyDb [str "r"]).ret ≠
      JsRet.num (applyAllMigrations oneGlob okReg emptyDb [str "r"]).numRun := by decide

/-- C7 amended: applyAllMigrations resolves with undefined; the count of
newly applied migrations is kept in the internal num_run counter (only
logged), and that counter equals the number of single-migration applies
that committed during the run — the number of commit operations in the
run's trace, zero when nothing was pending. -/
theorem applyAll_void_count_is_commits (σ : Type) (globJs : Glob) (reg : Registry σ)
    (st : DBState σ) (paths : List (List Char)) :
    (applyAllMigrations globJs reg st paths).ret = JsRet.undef ∧
    (applyAllMigrations globJs reg st paths).numRun =
      (applyAllMigrations globJs reg st paths).trace.count DbOp.commit := by
  constructor
  · rfl
  · unfold applyAllMigrations
    have h := applyAllLoop_numRun_commits reg (findAllMigrations globJs paths) st 0
    have hqc : DbOp.commit ≠ DbOp.query := by decide
    simpa [List.count_cons_of_ne hqc] using h

/-- C4: if a batch apply completes without error, a second batch apply
over the same roots and units newly applies nothing: its num_run count
is zero, it succeeds, it leaves the state untouched, and it invokes no
forward operation at all — every migration recorded by the first call is
skipped by the hasBeenRun guard. -/
theorem applyAll_idempotent (σ : Type) (globJs : Glob) (reg : Registry σ) (st : DBState σ)
    (paths : List (List Char))
    (h : (applyAllMigrations globJs reg st paths).err = none) :
    (applyAllMigrations globJs reg (applyAllMigrations globJs reg st paths).state
        paths).numRun = 0 ∧
    (applyAllMigrations globJs reg (applyAllMigrations globJs reg st paths).state
        paths).err = none ∧
    (applyAllMigrations globJs reg (applyAllMigrations globJs reg st paths).state
        paths).state = (applyAllMigrations globJs reg st paths).state ∧
    upsOf (applyAllMigrations globJs reg (applyAllMigrations globJs reg st paths).state
        paths).trace = [] := by
  have herr : (applyAllLoop reg st (findAllMigrations globJs paths) 0).err = none := h
  have hall := applyAllLoop_all_applied reg (findAllMigrations globJs paths) st 0 herr
  have hskip : ∀ m' ∈ findAllMigrations globJs paths,
      hasBeenRun (applyAllMigrations globJs reg st paths).state m' = true := by
    intro m' hm'
    exact decide_eq_true (hall m' hm')
  have h2 := applyAllLoop_skip_all reg (findAllMigrations globJs paths)
    (applyAllMigrations globJs reg st paths).state 0 hskip
  refine ⟨?_, ?_, ?_, ?_⟩
  · show (applyAllLoop reg (applyAllMigrations globJs reg st paths).state
      (findAllMigrations globJs paths) 0).numRun = 0
    rw [h2]
  · show (applyAllLoop reg (applyAllMigrations globJs reg st paths).state
      (findAllMigrations globJs paths) 0).err = none
    rw [h2]
  · show (applyAllLoop reg (applyAllMigrations globJs reg st paths).state
      (findAllMigrations globJs paths) 0).state = (applyAllMigrations globJs reg st paths).state
    rw [h2]
  · show upsOf (DbOp.query :: (applyAllLoop reg
      (applyAllMigrations globJs reg st paths).state
      (findAllMigrations globJs paths) 0).trace) = []
    rw [h2]
    simpa [upsOf] using upsOf_replicate_query (findAllMigrations globJs paths).length

/-- Witness for C4: one unit, applied by the first run, is skipped by
the second, which newly applies zero migrations. -/
theorem applyAll_idempotent_witness :
    (applyAllMigrations oneGlob okReg (applyAllMigrations oneGlob okReg emptyDb
        [str "r"]).state [str "r"]).numRun = 0 :=
  (applyAll_idempotent Unit oneGlob okReg emptyDb [str "r"] (by decide)).1

/-- C2: when the sorted discovery splits as ms1 then m then ms2, the
migrations of ms1 all succeed (or are skipped), and m is pending with a
forward operation that raises, the batch run fails with exactly that
error, keeps the state produced by the ms1 iterations (earlier commits
stay applied, m's transaction is rolled back), counts only the earlier
applies, and its trace ends at m's rollback — so the forward operations
invoked in the run come only from ms1 and m, never from ms2; a second
batch run from the resulting state skips every ms1 entry with one read
each (the hasBeenRun guard), resumes at the failing m, and newly applies
nothing. -/
theorem applyAll_fail_fast_resumable (σ : Type) (globJs : Glob) (reg : Registry σ)
    (st : DBState σ) (paths : List (List Char)) (ms1 ms2 : List Migration) (m : Migration)
    (hms : findAllMigrations globJs paths = ms1 ++ m :: ms2)
    (h1 : (applyAllLoop reg st ms1 0).err = none)
    (h2 : (reg m.location).up (applyAllLoop reg st ms1 0).state.schema = none)
    (h3 : hasBeenRun (applyAllLoop reg st ms1 0).state m = false) :
    (applyAllMigrations globJs reg st paths).err = some DbErr.unitFailed ∧
    (applyAllMigrations globJs reg st paths).state = (applyAllLoop reg st ms1 0).state ∧
    (applyAllMigrations globJs reg st paths).numRun = (applyAllLoop reg st ms1 0).numRun ∧
    (applyAllMigrations globJs reg st paths).trace =
      DbOp.query :: ((applyAllLoop reg st ms1 0).trace ++
        [DbOp.query, DbOp.beginTxn, DbOp.runUp m, DbOp.rollback]) ∧
    List.Sublist (upsOf (applyAllMigrations globJs reg st paths).trace) (ms1 ++ [m]) ∧
    (applyAllMigrations globJs reg
        (applyAllMigrations globJs reg st paths).state paths).trace =
      DbOp.query :: (List.replicate ms1.length DbOp.query ++
        [DbOp.query, DbOp.beginTxn, DbOp.runUp m, DbOp.rollback]) ∧
    (applyAllMigrations globJs reg
        (applyAllMigrations globJs reg st paths).state paths).numRun = 0 := by
  have hstep : _applyMigration reg (applyAllLoop reg st ms1 0).state m =
      ⟨some DbErr.unitFailed, (applyAllLoop reg st ms1 0).state,
        [DbOp.beginTxn, DbOp.runUp m, DbOp.rollback]⟩ :=
    _applyMigration_failUp reg (applyAllLoop reg st ms1 0).state m h2
  have hcons : applyAllLoop reg (applyAllLoop reg st ms1 0).state (m :: ms2)
      (applyAllLoop reg st ms1 0).numRun =
      ⟨some DbErr.unitFailed, (applyAllLoop reg st ms1 0).state,
        (applyAllLoop reg st ms1 0).numRun,
        [DbOp.query, DbOp.beginTxn, DbOp.runUp m, DbOp.rollback]⟩ := by
    rw [applyAllLoop_cons_err reg (applyAllLoop reg st ms1 0).state m ms2
      (applyAllLoop reg st ms1 0).numRun h3 (by rw [hstep]; exact Option.noConfusion)]
    rw [hstep]
  have hbatch : applyAllMigrations globJs reg st paths =
      ⟨some DbErr.unitFailed, (applyAllLoop reg st ms1 0).state,
        (applyAllLoop reg st ms1 0).numRun,
        DbOp.query :: ((applyAllLoop reg st ms1 0).trace ++
          [DbOp.query, DbOp.beginTxn, DbOp.runUp m, DbOp.rollback]), JsRet.undef⟩ := by
    simp only [applyAllMigrations, hms]
    rw [applyAllLoop_append reg ms1 (m :: ms2) st 0 h1, hcons]
  have hall := applyAllLoop_all_applied reg ms1 st 0 h1
  have hskip : applyAllLoop reg (applyAllLoop reg st ms1 0).state ms1 0 =
      ⟨none, (applyAllLoop reg st ms1 0).state, 0, List.replicate ms1.length DbOp.query⟩ :=
    applyAllLoop_skip_all reg ms1 (applyAllLoop reg st ms1 0).state 0
      (fun m' hm' => decide_eq_true (hall m' hm'))
  have hcons2 : applyAllLoop reg (applyAllLoop reg st ms1 0).state (m :: ms2) 0 =
      ⟨some DbErr.unitFailed, (applyAllLoop reg st ms1 0).state, 0,
        [DbOp.query, DbOp.beginTxn, DbOp.runUp m, DbOp.rollback]⟩ := by
    rw [applyAllLoop_cons_err reg (applyAllLoop reg st ms1 0).state m ms2 0 h3
      (by rw [hstep]; exact Option.noConfusion)]
    rw [hstep]
  have hbatch2 : applyAllMigrations globJs reg (applyAllLoop reg st ms1 0).state paths =
      ⟨some DbErr.unitFailed, (applyAllLoop reg st ms1 0).state, 0,
        DbOp.query :: (List.replicate ms1.length DbOp.query ++
          [DbOp.query, DbOp.beginTxn, DbOp.runUp m, DbOp.rollback]), JsRet.undef⟩ := by
    simp only [applyAllMigrations, hms]
    rw [applyAllLoop_append reg ms1 (m :: ms2) (applyAllLoop reg st ms1 0).state 0
      (by rw [hskip]), hskip, hcons2]
  refine ⟨?_, ?_, ?_, ?_, ?_, ?_, ?_⟩
  · rw [hbatch]
  · rw [hbatch]
  · rw [hbatch]
  · rw [hbatch]
  · rw [hbatch]
    show List.Sublist (upsOf (DbOp.query :: ((applyAllLoop reg st ms1 0).trace ++
      [DbOp.query, DbOp.beginTxn, DbOp.runUp m, DbOp.rollback]))) (ms1 ++ [m])
    have : upsOf (DbOp.query :: ((applyAllLoop reg st ms1 0).trace ++
        [DbOp.query, DbOp.beginTxn, DbOp.runUp m, DbOp.rollback])) =
        upsOf (applyAllLoop reg st ms1 0).trace ++ [m] := by
      simp [upsOf, upsOf_append]
    rw [this]
    exact (applyAllLoop_ups_sublist reg ms1 st 0).append (List.Sublist.refl [m])
  · rw [hbatch]
    exact congrArg BatchResult.trace hbatch2
  · rw [hbatch]
    exact congrArg BatchResult.numRun hbatch2

/-- Witness for C2 in the 10/20/30 scenario where 20's forward
operation raises: the first batch fails with that error, the second
skips 10, retries 20, and newly applies nothing. -/
theorem applyAll_fail_fast_resumable_witness :
    (applyAllMigrations demoGlob demoReg emptyDb [str "r"]).err =
      some DbErr.unitFailed ∧
    (applyAllMigrations demoGlob demoReg
        (applyAllMigrations demoGlob demoReg emptyDb [str "r"]).state [str "r"]).numRun = 0 := by
  have h := applyAll_fail_fast_resumable Unit demoGlob demoReg emptyDb [str "r"]
    [mig "r/10.js"] [mig "r/30.js"] (mig "r/20.js")
    (by decide) (by decide) (by decide) (by decide)
  exact ⟨h.1, h.2.2.2.2.2.2⟩

/-- C3: when the descriptors discovered across the roots have pairwise
distinct integer order keys, findAllMigrations is a permutation of the
raw cross-root aggregation arranged in strictly ascending order-key
sequence, and the forward invocations of the batch run follow that
strictly ascending sequence — regardless of which root contributed
which descriptor. -/
theorem applyAll_strict_ascending (σ : Type) (globJs : Glob) (reg : Registry σ)
    (st : DBState σ) (paths : List (List Char))
    (hall : ∀ mi ∈ discoveredRaw globJs paths, mi.order ≠ JsNum.nan)
    (hdist : (discoveredRaw globJs paths).Pairwise (fun a b => a.order ≠ b.order)) :
    List.Perm (findAllMigrations globJs paths) (discoveredRaw globJs paths) ∧
    (findAllMigrations globJs paths).Pairwise (fun a b => ordLtB a b = true) ∧
    (upsOf (applyAllMigrations globJs reg st paths).trace).Pairwise
      (fun a b => ordLtB a b = true) := by
  have hperm := sortByOrder_perm (discoveredRaw globJs paths)
  have hallS : ∀ x ∈ findAllMigrations globJs paths, x.order ≠ JsNum.nan :=
    fun x hx => hall x (hperm.mem_iff.mp hx)
  have hsorted : (findAllMigrations globJs paths).Pairwise
      (fun a b => orderLe a b = true) :=
    sortByOrder_sorted (discoveredRaw globJs paths) hall
  have hne : (findAllMigrations globJs paths).Pairwise (fun a b => a.order ≠ b.order) := by
    refine (hperm.pairwise_iff ?_).mpr hdist
    intro a b hab
    exact fun h => hab h.symm
  have hlt : (findAllMigrations globJs paths).Pairwise (fun a b => ordLtB a b = true) := by
    refine (hsorted.and hne).imp_of_mem ?_
    intro a b ha hb hab
    obtain ⟨hle, hneq⟩ := hab
    have hA := hallS a ha
    have hB := hallS b hb
    unfold orderLe at hle
    unfold ordLtB
    cases hao : a.order with
    | nan => exact absurd hao hA
    | int x =>
      cases hbo : b.order with
      | nan => exact absurd hbo hB
      | int y =>
        rw [hao, hbo] at hle hneq
        simp only [decide_eq_true_eq] at hle ⊢
        refine lt_of_le_of_ne hle ?_
        intro hxy
        exact hneq (congrArg JsNum.int hxy)
  refine ⟨hperm, hlt, ?_⟩
  have hup : upsOf (applyAllMigrations globJs reg st paths).trace =
      upsOf (applyAllLoop reg st (findAllMigrations globJs paths) 0).trace := rfl
  rw [hup]
  exact hlt.sublist (applyAllLoop_ups_sublist reg (findAllMigrations globJs paths) st 0)

/-- Witness for C3: roots a (order key 20) and b (order keys 10 and 30)
produce the strictly ascending sequence 10, 20, 30. -/
theorem applyAll_strict_ascending_witness :
    List.Perm (findAllMigrations crossGlob [str "a", str "b"])
      (discoveredRaw crossGlob [str "a", str "b"]) ∧
    (findAllMigrations crossGlob [str "a", str "b"]).Pairwise
      (fun a b => ordLtB a b = true) ∧
    (upsOf (applyAllMigrations crossGlob okReg emptyDb [str "a", str "b"]).trace).Pairwise
      (fun a b => ordLtB a b = true) :=
  applyAll_strict_ascending Unit crossGlob okReg emptyDb [str "a", str "b"]
    (by decide) (by decide)

